import Mathlib

/-!
Verification of the `fast_download` bulk fetcher (`src/main.rs`).

The development shallowly embeds the three components of the program:

* `parse_url_file` — the Record List parser (lines → `Image` records),
  modelled over an explicit list of input lines;
* `download_image` — the Fetch Unit, modelled as a pure function over an
  explicit filesystem map `FS` and an effect environment `Env` that decides
  the outcome of each external operation (network retrieval, file removal,
  directory creation, file creation, byte copy); it also returns the list
  of external operations it issued, in order;
* the bounded scheduler of `main`, modelled as a state machine over the
  in-flight list of pushed-but-not-drained futures, parameterised by a
  completion-choice function `pickF` (which in-flight future finishes at
  each drain step), producing the full list of intermediate states and an
  event trace.
-/

namespace FastDownload

/-- File contents, as a byte list. -/
abbrev Bytes := List Nat

/-- `struct Image { url, file_name }` from the source. -/
structure Image where
  url : String
  file_name : String
deriving DecidableEq, Repr

/-- `enum DownloadCompleted { Success, Skipped }` from the source. -/
inductive DownloadCompleted where
  | Success
  | Skipped
deriving DecidableEq, Repr

/-- `enum DownloadError` from the source.  The spec's names map as:
`CreateParentDirFailed ↦ FailedToCreateParentDirectory`,
`CreateFileFailed ↦ FailedToCreateFile`, `WriteFailed ↦ FailedToDownloadToFile`,
`BodyReadFailed ↦ FailedToConvertResponseToBytes`, `FetchFailed ↦ FailedToGetUrl`. -/
inductive DownloadError where
  | FailedToCreateParentDirectory
  | FailedToCreateFile
  | FailedToDownloadToFile
  | FailedToConvertResponseToBytes
  | FailedToGetUrl
deriving DecidableEq, Repr

/-- `type DownloadResult = Result<DownloadCompleted, DownloadError>`. -/
abbrev DownloadResult := Except DownloadError DownloadCompleted

instance : DecidableEq DownloadResult := fun a b =>
  match a, b with
  | .ok x, .ok y => if h : x = y then .isTrue (by rw [h]) else .isFalse (by simp [h])
  | .error x, .error y => if h : x = y then .isTrue (by rw [h]) else .isFalse (by simp [h])
  | .ok _, .error _ => .isFalse (by simp)
  | .error _, .ok _ => .isFalse (by simp)

/-! ## The Record List parser (`parse_url_file`, main.rs lines 117–139)

Rust's `str::split_whitespace` splits on whitespace and yields no empty
tokens; we embed it over Lean strings. -/

/-- Worker for `split_whitespace`: walks the character list with the
(reversed) current token as accumulator; whitespace ends the current
token, and empty tokens are never produced. -/
def splitWSAux : List Char → List Char → List String
  | [], [] => []
  | [], acc => [String.mk acc.reverse]
  | c :: cs, acc =>
    if c.isWhitespace then
      match acc with
      | [] => splitWSAux cs []
      | _ => String.mk acc.reverse :: splitWSAux cs []
    else splitWSAux cs (c :: acc)

/-- Rust `line.split_whitespace().collect::<Vec<_>>()`: the maximal
non-empty runs of non-whitespace characters, in order. -/
def split_whitespace (s : String) : List String :=
  splitWSAux s.data []

/-- The loop body of `parse_url_file`, recursing over the lines of the url
file.  Returns the parsed records in line order, together with the lines
reported as `invalid line: …`, in line order.  Mirrors main.rs 121–137:
empty lines (`line.len() == 0`) are skipped silently; lines with fewer than
two whitespace tokens are reported and skipped; otherwise the first token
is the url and the remaining tokens are rejoined with single spaces. -/
def parse_url_file : List String → List Image × List String
  | [] => ([], [])
  | line :: rest =>
    let (imgs, errs) := parse_url_file rest
    if line.length = 0 then
      (imgs, errs)
    else
      match split_whitespace line with
      | p0 :: p1 :: ps =>
        ({ url := p0, file_name := String.intercalate " " (p1 :: ps) } :: imgs, errs)
      | _ => (imgs, line :: errs)

/-- Written from the spec's words, for the refinement claim about the
parser: a single non-empty line with at least two whitespace-delimited
tokens yields the record whose source is the first token and whose
destination is the remaining tokens rejoined with single spaces. -/
def recordOfLine (line : String) : Option Image :=
  match split_whitespace line with
  | p0 :: p1 :: ps => some { url := p0, file_name := String.intercalate " " (p1 :: ps) }
  | _ => none

/-- Written from the spec's words: a line is reported (and skipped) when it
is non-empty but has fewer than two whitespace-delimited tokens. -/
def reportedLine (line : String) : Bool :=
  !(line.length == 0) && (split_whitespace line).length < 2

/-! ## The Fetch Unit (`download_image`, main.rs lines 141–177)

The local filesystem is a map from path strings to file contents; a path
exists iff the map is `some` there.  The environment `Env` fixes the
outcome of every external operation: `get` is `reqwest::get` (its `Err`
covers connection/DNS/protocol failures; note that a response with any
HTTP status, success or not, is an `Ok` — `reqwest::get` does not fail on
non-2xx statuses and the source never inspects `Response::status`),
`removeOk` whether `std::fs::remove_file` succeeds, `parent` the result of
`Path::parent`, `createDirOk` whether `create_dir_all` succeeds,
`createFileOk` whether `File::create` succeeds, and `copyOk` whether
`io::copy` succeeds. -/

/-- A network response: its HTTP status code and the outcome of reading
its body (`Response::bytes`). -/
structure Response where
  status : Nat
  bodyResult : Except Unit Bytes

/-- The filesystem: contents of each existing file, by path. -/
abbrev FS := String → Option Bytes

/-- Outcomes of the external operations `download_image` may issue. -/
structure Env where
  get : String → Except Unit Response
  removeOk : String → Bool
  parent : String → Option String
  createDirOk : String → Bool
  createFileOk : String → Bool
  copyOk : String → Bool

/-- External operations, recorded in the order they are issued. -/
inductive FsEv where
  | removeFile (p : String)
  | getUrl (u : String)
  | createDirAll (p : String)
  | createFile (p : String)
  | writeFile (p : String)
deriving DecidableEq, Repr

/-- Result of one `download_image` call: the returned `DownloadResult`,
the filesystem afterwards, and the ordered list of external operations
issued. -/
structure DownloadOut where
  result : DownloadResult
  fs : FS
  trace : List FsEv

/-- main.rs 162–169: `File::create(path)` then `io::copy`.  A successful
create truncates the destination to empty before the copy writes the
body; a failed copy leaves the truncated (partial) file behind. -/
def createPhase (env : Env) (fs : FS) (path : String) (bytes : Bytes)
    (tr : List FsEv) : DownloadOut :=
  if env.createFileOk path then
    if env.copyOk path then
      ⟨.ok .Success, fun p => if p = path then some bytes else fs p,
        tr ++ [FsEv.createFile path, FsEv.writeFile path]⟩
    else
      ⟨.error .FailedToDownloadToFile, fun p => if p = path then some [] else fs p,
        tr ++ [FsEv.createFile path, FsEv.writeFile path]⟩
  else
    ⟨.error .FailedToCreateFile, fs, tr ++ [FsEv.createFile path]⟩

/-- main.rs 152–176: the part of `download_image` from `reqwest::get`
onwards (network retrieval, body read, parent-directory creation, file
creation and write). -/
def fetchPhase (env : Env) (fs : FS) (image : Image) (tr : List FsEv) : DownloadOut :=
  let path := image.file_name
  match env.get image.url with
  | .error _ => ⟨.error .FailedToGetUrl, fs, tr ++ [FsEv.getUrl image.url]⟩
  | .ok response =>
    match response.bodyResult with
    | .error _ =>
      ⟨.error .FailedToConvertResponseToBytes, fs, tr ++ [FsEv.getUrl image.url]⟩
    | .ok bytes =>
      match env.parent path with
      | some parentDir =>
        if env.createDirOk parentDir then
          createPhase env fs path bytes
            (tr ++ [FsEv.getUrl image.url, FsEv.createDirAll parentDir])
        else
          ⟨.error .FailedToCreateParentDirectory, fs,
            tr ++ [FsEv.getUrl image.url, FsEv.createDirAll parentDir]⟩
      | none => createPhase env fs path bytes (tr ++ [FsEv.getUrl image.url])

/-- main.rs 141–177: `download_image`.  First the existence check on the
destination (main.rs 143–151): an existing destination is skipped unless
`force_redownload`, in which case it is removed first — a failed removal
returns `FailedToCreateFile` with no further operation.  Then the fetch
pipeline of `fetchPhase`. -/
def download_image (env : Env) (fs : FS) (image : Image)
    (force_redownload : Bool) : DownloadOut :=
  let path := image.file_name
  if (fs path).isSome then
    if force_redownload then
      if env.removeOk path then
        fetchPhase env (fun p => if p = path then none else fs p) image
          [FsEv.removeFile path]
      else
        ⟨.error .FailedToCreateFile, fs, [FsEv.removeFile path]⟩
    else
      ⟨.ok .Skipped, fs, []⟩
  else
    fetchPhase env fs image []

/-- A network-access event: `FsEv.getUrl` for some url. -/
def FsEv.isGet : FsEv → Bool
  | .getUrl _ => true
  | _ => false

/-- A destination-writing event: `File::create` or the byte copy into it. -/
def FsEv.isWrite : FsEv → Bool
  | .createFile _ => true
  | .writeFile _ => true
  | _ => false

/-! ## The bounded scheduler (`main`, main.rs lines 43–85)

`main` pushes one future per image into a `FuturesUnordered`; after each
push, if more than 20 futures are in flight it awaits one completion and
advances the progress bar; after the loop it drains the remaining futures
one at a time.  A future, when it completes, reports its error (if any)
and panics when errors are not ignored — the panic propagates out of
`next().await`, so the progress bar is not advanced for that completion
and nothing further is launched or drained.

Each in-flight future is modelled by the image it was launched for
together with the `DownloadResult` it will produce.  Which in-flight
future completes at a drain step is chosen by `pickF` applied to the
number of drain steps taken so far (`FuturesUnordered` yields whichever
future finishes first, in arrival order, not launch order); its value is
reduced modulo the in-flight count, so every completion order is covered. -/

/-- One in-flight future: its image and the outcome it will produce. -/
abbrev Item := Image × DownloadResult

/-- Scheduler state: the in-flight list, the progress-bar count, and
whether the run has aborted (panicked). -/
structure St where
  inflight : List Item
  progress : Nat
  aborted : Bool
deriving DecidableEq, Repr

/-- Observable scheduler events, in order: a future pushed (`launch`), a
completion processed (`drained`), the error report println, the verbose
printlns, and a progress-bar increment (`inc`). -/
inductive SchedEv where
  | launch (img : Image)
  | drained (img : Image) (r : DownloadResult)
  | reportErr (e : DownloadError) (url : String) (file_name : String)
  | skippedMsg (file_name : String)
  | downloadedMsg (file_name : String)
  | inc
deriving DecidableEq, Repr

/-- One `futures.next().await` (main.rs 76 or 81) followed by `pb.inc(1)`:
the chosen in-flight future completes and runs its match arm
(main.rs 52–72).  An error outcome is always reported; with
`ignore_download_errors` false it panics — the state aborts and the
progress bar is not advanced.  Otherwise the progress bar advances. -/
def drainStep (ignore verbose : Bool) (k : Nat) (s : St) : St × List SchedEv :=
  let i := k % s.inflight.length
  match s.inflight[i]? with
  | none => (s, [])
  | some (img, r) =>
    let rest := s.inflight.eraseIdx i
    match r with
    | .error e =>
      if ignore then
        ({ inflight := rest, progress := s.progress + 1, aborted := s.aborted },
          [SchedEv.drained img r, SchedEv.reportErr e img.url img.file_name,
            SchedEv.inc])
      else
        ({ inflight := rest, progress := s.progress, aborted := true },
          [SchedEv.drained img r, SchedEv.reportErr e img.url img.file_name])
    | .ok .Skipped =>
      ({ inflight := rest, progress := s.progress + 1, aborted := s.aborted },
        [SchedEv.drained img r]
          ++ (if verbose then [SchedEv.skippedMsg img.file_name] else [])
          ++ [SchedEv.inc])
    | .ok .Success =>
      ({ inflight := rest, progress := s.progress + 1, aborted := s.aborted },
        [SchedEv.drained img r]
          ++ (if verbose then [SchedEv.downloadedMsg img.file_name] else [])
          ++ [SchedEv.inc])

/-- The `for image in images` loop (main.rs 50–79): push each future, and
after each push drain one completion when more than 20 are in flight.  A
panic during a drain ends the loop at once.  Returns the final state, the
intermediate states (one after each push and each drain), the events, and
the number of drain steps taken (to keep indexing into `pickF`). -/
def launchPhase (ignore verbose : Bool) (pickF : Nat → Nat) :
    List Item → Nat → St → St × List St × List SchedEv × Nat
  | [], d, s => (s, [], [], d)
  | it :: rest, d, s =>
    let s1 : St := { s with inflight := s.inflight ++ [it] }
    if s1.inflight.length > 20 then
      let (s2, evs) := drainStep ignore verbose (pickF d) s1
      if s2.aborted then
        (s2, [s1, s2], SchedEv.launch it.1 :: evs, d + 1)
      else
        let (sf, sts, evs', df) := launchPhase ignore verbose pickF rest (d + 1) s2
        (sf, s1 :: s2 :: sts, SchedEv.launch it.1 :: (evs ++ evs'), df)
    else
      let (sf, sts, evs', df) := launchPhase ignore verbose pickF rest d s1
      (sf, s1 :: sts, SchedEv.launch it.1 :: evs', df)

/-- The `while futures.len() > 0` drain loop (main.rs 80–83), with
explicit fuel; each iteration removes exactly one in-flight future, so
fuel equal to the in-flight count runs the loop to completion (proved in
`drainLoop_drains`). -/
def drainLoop (ignore verbose : Bool) (pickF : Nat → Nat) :
    Nat → Nat → St → St × List St × List SchedEv
  | 0, _, s => (s, [], [])
  | fuel + 1, d, s =>
    if s.inflight.isEmpty then (s, [], [])
    else
      let (s', evs) := drainStep ignore verbose (pickF d) s
      if s'.aborted then (s', [s'], evs)
      else
        let (sf, sts, evs') := drainLoop ignore verbose pickF fuel (d + 1) s'
        (sf, s' :: sts, evs ++ evs')

/-- Result of a scheduler run: final state, every intermediate state in
order (the instants of the run), and the event trace. -/
structure RunOut where
  final : St
  states : List St
  events : List SchedEv

/-- The whole scheduler (main.rs 47–84): launch phase, then — unless the
run already aborted — the drain loop. -/
def schedule (ignore verbose : Bool) (pickF : Nat → Nat) (items : List Item) :
    RunOut :=
  let s0 : St := { inflight := [], progress := 0, aborted := false }
  let (s1, sts1, evs1, d) := launchPhase ignore verbose pickF items 0 s0
  if s1.aborted then ⟨s1, s0 :: sts1, evs1⟩
  else
    let (sf, sts2, evs2) := drainLoop ignore verbose pickF s1.inflight.length d s1
    ⟨sf, s0 :: (sts1 ++ sts2), evs1 ++ evs2⟩

/-- `main` end to end, for a given input file contents and an oracle
giving each record's download outcome: parse the url file, then schedule
one future per parsed record (main.rs 44–50). -/
def mainRun (ignore verbose : Bool) (pickF : Nat → Nat) (lines : List String)
    (outcome : Image → DownloadResult) : RunOut :=
  schedule ignore verbose pickF
    (((parse_url_file lines).1).map (fun img => (img, outcome img)))

/-- Event classifiers used by the claims. -/
def SchedEv.isLaunch : SchedEv → Bool
  | .launch _ => true
  | _ => false

def SchedEv.isInc : SchedEv → Bool
  | .inc => true
  | _ => false

def SchedEv.isReportErr : SchedEv → Bool
  | .reportErr _ _ _ => true
  | _ => false

/-! ### Concrete instances used by witnesses and counterexamples -/

/-- A sample record. -/
def img1 : Image := ⟨"u", "f"⟩

/-- Everything succeeds; the server answers 200 with body `[1, 2, 3]`. -/
def envOk : Env :=
  ⟨fun _ => .ok ⟨200, .ok [1, 2, 3]⟩, fun _ => true, fun _ => none,
    fun _ => true, fun _ => true, fun _ => true⟩

/-- Everything succeeds; the server answers 404 with body `[7]` (the error
page).  `reqwest::get` reports such a response as `Ok`. -/
def env404 : Env :=
  ⟨fun _ => .ok ⟨404, .ok [7]⟩, fun _ => true, fun _ => none,
    fun _ => true, fun _ => true, fun _ => true⟩

/-- The network is unreachable: every retrieval is a transport error. -/
def envNetDown : Env :=
  ⟨fun _ => .error (), fun _ => true, fun _ => none,
    fun _ => true, fun _ => true, fun _ => true⟩

/-- The network is unreachable and file removal fails as well. -/
def envNoRemove : Env :=
  ⟨fun _ => .error (), fun _ => false, fun _ => none,
    fun _ => true, fun _ => true, fun _ => true⟩

/-- The empty filesystem. -/
def fsEmpty : FS := fun _ => none

/-- A filesystem where only `"f"` exists, with content `[9]`. -/
def fsF : FS := fun p => if p = "f" then some [9] else none

/-- Twenty-one records that all succeed. -/
def items21 : List Item := List.replicate 21 (img1, .ok .Success)

/-! ## Helper lemmas about the Fetch Unit -/

/-- `createPhase` only appends to the trace it is given. -/
theorem createPhase_trace (env : Env) (fs : FS) (path : String) (bytes : Bytes)
    (tr : List FsEv) : ∃ l, (createPhase env fs path bytes tr).trace = tr ++ l := by
  unfold createPhase
  split
  · split
    · exact ⟨_, rfl⟩
    · exact ⟨_, rfl⟩
  · exact ⟨_, rfl⟩

/-- `fetchPhase` only appends to the trace it is given. -/
theorem fetchPhase_trace (env : Env) (fs : FS) (image : Image)
    (tr : List FsEv) : ∃ l, (fetchPhase env fs image tr).trace = tr ++ l := by
  unfold fetchPhase
  dsimp only
  split
  · exact ⟨_, rfl⟩
  · split
    · exact ⟨_, rfl⟩
    · split
      · split
        · obtain ⟨l, hl⟩ := createPhase_trace env fs image.file_name _
            (tr ++ [FsEv.getUrl image.url, FsEv.createDirAll _])
          exact ⟨_, by rw [hl, List.append_assoc]⟩
        · exact ⟨_, rfl⟩
      · obtain ⟨l, hl⟩ := createPhase_trace env fs image.file_name _
          (tr ++ [FsEv.getUrl image.url])
        exact ⟨_, by rw [hl, List.append_assoc]⟩

/-! ## Fetch Unit claims -/

/-- C4: for every record whose destination path already exists, if
`forceRedownload` is false then the Fetch Unit returns `Skipped`
immediately, issues no external operation at all (in particular no
network access), and leaves the filesystem — hence the existing file —
unmodified. -/
theorem skip_existing_no_force (env : Env) (fs : FS) (image : Image)
    (h : (fs image.file_name).isSome = true) :
    (download_image env fs image false).result = .ok .Skipped ∧
    (download_image env fs image false).trace = [] ∧
    (download_image env fs image false).fs = fs := by
  simp [download_image, h]

/-- Witness for C4: destination `"f"` exists with content `[9]`. -/
theorem skip_existing_no_force_witness :
    (fsF img1.file_name).isSome = true ∧
    ((download_image envOk fsF img1 false).result = .ok .Skipped ∧
      (download_image envOk fsF img1 false).trace = [] ∧
      (download_image envOk fsF img1 false).fs = fsF) :=
  ⟨by decide, skip_existing_no_force envOk fsF img1 (by decide)⟩

/-- C9: for a record whose destination path does not exist, the Fetch
Unit's behaviour — outcome, filesystem effect and issued operations — is
identical for `forceRedownload = true` and `forceRedownload = false`:
the flag only matters through the pre-existence branch. -/
theorem force_flag_irrelevant_when_absent (env : Env) (fs : FS) (image : Image)
    (h : fs image.file_name = none) :
    download_image env fs image true = download_image env fs image false := by
  simp [download_image, h]

/-- Witness for C9: the empty filesystem. -/
theorem force_flag_irrelevant_when_absent_witness :
    fsEmpty img1.file_name = none ∧
    download_image envOk fsEmpty img1 true = download_image envOk fsEmpty img1 false :=
  ⟨rfl, force_flag_irrelevant_when_absent envOk fsEmpty img1 rfl⟩

/-- C3: for a record whose destination exists, with `forceRedownload`
true, the Fetch Unit's first external operation is the deletion of the
destination (so it happens before any network access); if the deletion
fails it returns `Failed(CreateFileFailed)` (`FailedToCreateFile`) having
issued no network access and left the filesystem unchanged; and if the
deletion succeeds but the subsequent network retrieval fails, the
destination is left absent, not restored. -/
theorem force_deletes_before_fetch (env : Env) (fs : FS) (image : Image)
    (h : (fs image.file_name).isSome = true) :
    (download_image env fs image true).trace.head? =
      some (FsEv.removeFile image.file_name) ∧
    (env.removeOk image.file_name = false →
      (download_image env fs image true).result = .error .FailedToCreateFile ∧
      (∀ ev ∈ (download_image env fs image true).trace, ev.isGet = false) ∧
      (download_image env fs image true).fs = fs) ∧
    (env.removeOk image.file_name = true → env.get image.url = .error () →
      (download_image env fs image true).result = .error .FailedToGetUrl ∧
      (download_image env fs image true).fs image.file_name = none) := by
  by_cases hr : env.removeOk image.file_name
  · have hd : download_image env fs image true =
        fetchPhase env (fun p => if p = image.file_name then none else fs p) image
          [FsEv.removeFile image.file_name] := by
      simp [download_image, h, hr]
    rw [hd]
    refine ⟨?_, ?_, ?_⟩
    · obtain ⟨l, hl⟩ := fetchPhase_trace env _ image [FsEv.removeFile image.file_name]
      rw [hl]
      rfl
    · intro hc
      rw [hr] at hc
      cases hc
    · intro _ hget
      simp [fetchPhase, hget]
  · have hd : download_image env fs image true =
        ⟨.error .FailedToCreateFile, fs, [FsEv.removeFile image.file_name]⟩ := by
      simp [download_image, h, hr]
    rw [hd]
    refine ⟨rfl, fun _ => ⟨rfl, ?_, rfl⟩, fun hc => ?_⟩
    · intro ev hev
      simp only [List.mem_singleton] at hev
      subst hev
      rfl
    · rw [hc] at hr
      cases hr rfl

/-- Witness for C3: destination `"f"` exists, removal fails, network
down. -/
theorem force_deletes_before_fetch_witness :
    (fsF img1.file_name).isSome = true ∧
    ((download_image envNoRemove fsF img1 true).trace.head? =
        some (FsEv.removeFile img1.file_name) ∧
      (envNoRemove.removeOk img1.file_name = false →
        (download_image envNoRemove fsF img1 true).result = .error .FailedToCreateFile ∧
        (∀ ev ∈ (download_image envNoRemove fsF img1 true).trace, ev.isGet = false) ∧
        (download_image envNoRemove fsF img1 true).fs = fsF) ∧
      (envNoRemove.removeOk img1.file_name = true →
        envNoRemove.get img1.url = .error () →
        (download_image envNoRemove fsF img1 true).result = .error .FailedToGetUrl ∧
        (download_image envNoRemove fsF img1 true).fs img1.file_name = none)) :=
  ⟨by decide, force_deletes_before_fetch envNoRemove fsF img1 (by decide)⟩

/-- C2 counterexample: a retrieval that delivers an HTTP 404 response is
an `Ok` for `reqwest::get` (which only fails at transport level and is
never asked for `error_for_status`), so the Fetch Unit writes the error
body to the destination and returns `Success` — not `Failed(FetchFailed)`
as the claim requires for a non-success response. -/
theorem non_success_status_written :
    env404.get img1.url = .ok ⟨404, .ok [7]⟩ ∧
    (download_image env404 fsEmpty img1 false).result = .ok .Success ∧
    (download_image env404 fsEmpty img1 false).fs img1.file_name = some [7] := by
  refine ⟨rfl, rfl, ?_⟩
  simp [download_image, fetchPhase, createPhase, env404, fsEmpty, img1]

/-- C2 (amended): for every record whose network retrieval is actually
issued and fails at transport level (`reqwest::get` returns `Err`), the
Fetch Unit returns `Failed(FetchFailed)` (`FailedToGetUrl`) and does not
write the destination file: no file-creating or file-writing operation is
issued, and the destination afterwards holds its previous content or —
when a forced deletion preceded the retrieval — is absent.  A non-success
HTTP status is *not* a failure: the body is written and `Success`
returned (see the counterexample). -/
theorem transport_error_fails_no_write (env : Env) (fs : FS) (image : Image)
    (force : Bool) (hget : env.get image.url = .error ())
    (hio : FsEv.getUrl image.url ∈ (download_image env fs image force).trace) :
    (download_image env fs image force).result = .error .FailedToGetUrl ∧
    (∀ ev ∈ (download_image env fs image force).trace, ev.isWrite = false) ∧
    ((download_image env fs image force).fs image.file_name = fs image.file_name ∨
      (download_image env fs image force).fs image.file_name = none) := by
  by_cases hex : (fs image.file_name).isSome
  · cases force with
    | false =>
      have hd : download_image env fs image false = ⟨.ok .Skipped, fs, []⟩ := by
        simp [download_image, hex]
      rw [hd] at hio
      cases hio
    | true =>
      by_cases hr : env.removeOk image.file_name
      · have hd : download_image env fs image true =
            fetchPhase env (fun p => if p = image.file_name then none else fs p)
              image [FsEv.removeFile image.file_name] := by
          simp [download_image, hex, hr]
        rw [hd]
        simp [fetchPhase, hget, FsEv.isWrite]
      · have hd : download_image env fs image true =
            ⟨.error .FailedToCreateFile, fs, [FsEv.removeFile image.file_name]⟩ := by
          simp [download_image, hex, hr]
        rw [hd] at hio
        simp at hio
  · have hd : download_image env fs image force = fetchPhase env fs image [] := by
      simp [download_image, hex]
    rw [hd]
    simp [fetchPhase, hget, FsEv.isWrite]

/-- Witness for C2 (amended): the network is down, destination absent. -/
theorem transport_error_fails_no_write_witness :
    envNetDown.get img1.url = .error () ∧
    FsEv.getUrl img1.url ∈ (download_image envNetDown fsEmpty img1 false).trace ∧
    ((download_image envNetDown fsEmpty img1 false).result = .error .FailedToGetUrl ∧
      (∀ ev ∈ (download_image envNetDown fsEmpty img1 false).trace,
        ev.isWrite = false) ∧
      ((download_image envNetDown fsEmpty img1 false).fs img1.file_name =
          fsEmpty img1.file_name ∨
        (download_image envNetDown fsEmpty img1 false).fs img1.file_name = none)) :=
  ⟨rfl, by decide,
    transport_error_fails_no_write envNetDown fsEmpty img1 false rfl (by decide)⟩

/-! ## Record List parser claim -/

/-- C5: the parser produces, in line order, one record per non-empty line
with at least two whitespace-delimited tokens — source the first token,
destination the remaining tokens rejoined with single spaces
(`recordOfLine`) — and its reported lines are exactly the non-empty lines
with fewer than two tokens (`reportedLine`); empty lines are skipped
silently, and no line is fatal. -/
theorem parse_url_file_characterisation (lines : List String) :
    (parse_url_file lines).1 = lines.filterMap recordOfLine ∧
    (parse_url_file lines).2 = lines.filter reportedLine := by
  induction lines with
  | nil => exact ⟨rfl, rfl⟩
  | cons line rest ih =>
    obtain ⟨ih1, ih2⟩ := ih
    by_cases hemp : line.length = 0
    · have hline : line = "" := by
        cases line with
        | mk data =>
          cases data with
          | nil => rfl
          | cons c cs => simp [String.length] at hemp
      subst hline
      simp [parse_url_file, recordOfLine, reportedLine, split_whitespace,
        splitWSAux, ih1, ih2]
    · rcases hsw : split_whitespace line with _ | ⟨p0, _ | ⟨p1, ps⟩⟩
      · simp [parse_url_file, hemp, recordOfLine, reportedLine, hsw, ih1, ih2]
      · simp [parse_url_file, hemp, recordOfLine, reportedLine, hsw, ih1, ih2]
      · simp [parse_url_file, hemp, recordOfLine, reportedLine, hsw, ih1, ih2]

/-! ## Scheduler lemmas -/

/-- Everything a single drain step guarantees: it removes exactly one
in-flight future; it either advances the progress bar once (no abort) or
advances nothing and aborts (only possible when errors are not ignored);
it launches nothing; every drained error is accompanied by its report;
and when errors are not ignored its events are report-free unless it
aborts, in which case the report is its last event. -/
theorem drainStep_spec (ignore verbose : Bool) (k : Nat) (s s' : St)
    (evs : List SchedEv) (h : s.inflight ≠ []) (ha : s.aborted = false)
    (hstep : drainStep ignore verbose k s = (s', evs)) :
    s'.inflight.length + 1 = s.inflight.length ∧
    ((s'.aborted = false ∧ s'.progress = s.progress + 1 ∧
        evs.countP SchedEv.isInc = 1) ∨
      (s'.aborted = true ∧ ignore = false ∧ s'.progress = s.progress ∧
        evs.countP SchedEv.isInc = 0)) ∧
    evs.countP SchedEv.isLaunch = 0 ∧
    (∀ img e, SchedEv.drained img (.error e) ∈ evs →
      SchedEv.reportErr e img.url img.file_name ∈ evs) ∧
    (ignore = false →
      (s'.aborted = false ∧ ∀ ev ∈ evs, ev.isReportErr = false) ∨
      (s'.aborted = true ∧ ∃ l e u f, evs = l ++ [SchedEv.reportErr e u f] ∧
        ∀ ev ∈ l, ev.isReportErr = false)) := by
  have hpos : 0 < s.inflight.length := List.length_pos.mpr h
  have hn : k % s.inflight.length < s.inflight.length := Nat.mod_lt _ hpos
  have hlen : (s.inflight.eraseIdx (k % s.inflight.length)).length + 1 =
      s.inflight.length := List.length_eraseIdx_add_one hn
  unfold drainStep at hstep
  dsimp only at hstep
  rw [List.getElem?_eq_getElem hn] at hstep
  generalize hel : s.inflight[k % s.inflight.length] = el at hstep
  obtain ⟨img, r⟩ := el
  dsimp only at hstep
  rcases r with e | c
  · dsimp only at hstep
    by_cases hi : ignore
    · rw [if_pos hi] at hstep
      injection hstep with h1 h2
      subst h1
      subst h2
      refine ⟨hlen, Or.inl ⟨ha, rfl, by simp [SchedEv.isInc]⟩,
        by simp [SchedEv.isLaunch], ?_, ?_⟩
      · intro img' e' hmem
        simp only [List.mem_cons, List.not_mem_nil, or_false] at hmem
        rcases hmem with hmem | hmem | hmem
        · obtain ⟨rfl, he⟩ := SchedEv.drained.inj hmem
          obtain rfl := Except.error.inj he
          simp
        · cases hmem
        · cases hmem
      · intro hcon
        rw [hcon] at hi
        cases hi
    · rw [if_neg hi] at hstep
      injection hstep with h1 h2
      subst h1
      subst h2
      refine ⟨hlen, Or.inr ⟨rfl, by simpa using hi, rfl, by simp [SchedEv.isInc]⟩,
        by simp [SchedEv.isLaunch], ?_, ?_⟩
      · intro img' e' hmem
        simp only [List.mem_cons, List.not_mem_nil, or_false] at hmem
        rcases hmem with hmem | hmem
        · obtain ⟨rfl, he⟩ := SchedEv.drained.inj hmem
          obtain rfl := Except.error.inj he
          simp
        · cases hmem
      · intro _
        refine Or.inr ⟨rfl, [SchedEv.drained img (.error e)], e, img.url,
          img.file_name, rfl, ?_⟩
        intro ev hev
        simp only [List.mem_singleton] at hev
        subst hev
        rfl
  · rcases c with _ | _ <;>
    · dsimp only at hstep
      injection hstep with h1 h2
      subst h1
      subst h2
      by_cases hv : verbose <;>
        refine ⟨hlen, Or.inl ⟨ha, rfl, by simp [hv, SchedEv.isInc]⟩,
          by simp [hv, SchedEv.isLaunch], ?_, fun _ => Or.inl ⟨ha, ?_⟩⟩ <;>
        simp [hv, SchedEv.isReportErr]

/-- Invariants of the final drain loop, by induction on the fuel: states
only shrink; with enough fuel and no abort the loop empties the in-flight
set, advancing progress once per drained future; an abort loses at least
one completion; nothing is launched; errors ignored means no abort; every
drained error is reported; and without `ignore` the trace is report-free
unless it ends in the single fatal report. -/
theorem drainLoop_spec (ignore verbose : Bool) (pickF : Nat → Nat)
    (fuel : Nat) : ∀ (d : Nat) (s sf : St) (sts : List St)
    (evs : List SchedEv), s.aborted = false → s.inflight.length ≤ fuel →
    drainLoop ignore verbose pickF fuel d s = (sf, sts, evs) →
    (∀ t ∈ sts, t.inflight.length ≤ s.inflight.length) ∧
    (sf.aborted = false →
      sf.inflight = [] ∧ sf.progress = s.progress + s.inflight.length) ∧
    (sf.aborted = true →
      sf.progress + sf.inflight.length < s.progress + s.inflight.length) ∧
    sf.progress = s.progress + evs.countP SchedEv.isInc ∧
    evs.countP SchedEv.isLaunch = 0 ∧
    (ignore = true → sf.aborted = false) ∧
    (∀ img e, SchedEv.drained img (.error e) ∈ evs →
      SchedEv.reportErr e img.url img.file_name ∈ evs) ∧
    (ignore = false →
      (sf.aborted = false ∧ ∀ ev ∈ evs, ev.isReportErr = false) ∨
      (sf.aborted = true ∧ ∃ l e u f, evs = l ++ [SchedEv.reportErr e u f] ∧
        ∀ ev ∈ l, ev.isReportErr = false)) := by
  induction fuel with
  | zero =>
    intro d s sf sts evs ha hfuel hrun
    simp only [drainLoop] at hrun
    injection hrun with hA hrest
    injection hrest with hB hC
    subst hA
    subst hB
    subst hC
    have hnil : s.inflight = [] := List.eq_nil_of_length_eq_zero (by omega)
    refine ⟨by simp, fun _ => ⟨hnil, by simp [hnil]⟩, fun hab => ?_, by simp,
      by simp, fun _ => ha, by simp, fun _ => Or.inl ⟨ha, by simp⟩⟩
    rw [hab] at ha
    cases ha
  | succ fuel ih =>
    intro d s sf sts evs ha hfuel hrun
    simp only [drainLoop] at hrun
    by_cases hemp : s.inflight.isEmpty
    · rw [if_pos hemp] at hrun
      injection hrun with hA hrest
      injection hrest with hB hC
      subst hA
      subst hB
      subst hC
      have hnil : s.inflight = [] := by
        cases hs : s.inflight with
        | nil => rfl
        | cons a l => rw [hs] at hemp; cases hemp
      refine ⟨by simp, fun _ => ⟨hnil, by simp [hnil]⟩, fun hab => ?_, by simp,
        by simp, fun _ => ha, by simp, fun _ => Or.inl ⟨ha, by simp⟩⟩
      rw [hab] at ha
      cases ha
    · rw [if_neg hemp] at hrun
      have hne : s.inflight ≠ [] := by
        intro hc
        rw [hc] at hemp
        exact hemp rfl
      have hpos : 0 < s.inflight.length := List.length_pos.mpr hne
      rcases hd : drainStep ignore verbose (pickF d) s with ⟨s1, evs1⟩
      rw [hd] at hrun
      dsimp only at hrun
      obtain ⟨hL, hPA, hLa, hRep, hPl⟩ :=
        drainStep_spec ignore verbose (pickF d) s s1 evs1 hne ha hd
      by_cases hab : s1.aborted
      · rw [if_pos hab] at hrun
        injection hrun with hA hrest
        injection hrest with hB hC
        subst hA
        subst hB
        subst hC
        rcases hPA with ⟨hf, _⟩ | ⟨_, hig, hprog, hinc⟩
        · rw [hab] at hf
          cases hf
        · refine ⟨?_, fun hnab => ?_, fun _ => by omega, by omega, hLa,
            fun hi => ?_, hRep, fun _ => ?_⟩
          · intro t ht
            simp only [List.mem_singleton] at ht
            subst ht
            omega
          · rw [hnab] at hab
            cases hab
          · rw [hi] at hig
            cases hig
          · rcases hPl hig with ⟨hf, _⟩ | ⟨_, hdec⟩
            · rw [hab] at hf
              cases hf
            · exact Or.inr ⟨hab, hdec⟩
      · rw [if_neg hab] at hrun
        rcases hrec : drainLoop ignore verbose pickF fuel (d + 1) s1
          with ⟨sf1, sts1, evs2⟩
        rw [hrec] at hrun
        dsimp only at hrun
        injection hrun with hA hrest
        injection hrest with hB hC
        subst hA
        subst hB
        subst hC
        have hab' : s1.aborted = false := by
          cases hv : s1.aborted
          · rfl
          · rw [hv] at hab; cases hab rfl
        rcases hPA with ⟨_, hprog, hinc⟩ | ⟨hf, _⟩
        · obtain ⟨ihSts, ihDone, ihAb, ihInc, ihLa, ihIg, ihRep, ihPl⟩ :=
            ih (d + 1) s1 sf1 sts1 evs2 hab' (by omega) hrec
          refine ⟨?_, fun hnab => ?_, fun hfab => ?_, ?_, ?_, ihIg, ?_, ?_⟩
          · intro t ht
            rcases List.mem_cons.mp ht with rfl | ht'
            · omega
            · have := ihSts t ht'
              omega
          · obtain ⟨hA1, hA2⟩ := ihDone hnab
            exact ⟨hA1, by omega⟩
          · have := ihAb hfab
            omega
          · rw [List.countP_append]
            omega
          · rw [List.countP_append, hLa, ihLa]
          · intro img e hmem
            rcases List.mem_append.mp hmem with hm | hm
            · exact List.mem_append.mpr (Or.inl (hRep img e hm))
            · exact List.mem_append.mpr (Or.inr (ihRep img e hm))
          · intro hig
            have h1 : ∀ ev ∈ evs1, ev.isReportErr = false := by
              rcases hPl hig with ⟨_, hfree⟩ | ⟨hf, _⟩
              · exact hfree
              · rw [hf] at hab
                cases hab rfl
            rcases ihPl hig with ⟨hnab, hfree2⟩ | ⟨hfab, l, e, u, f, hdec, hfree2⟩
            · refine Or.inl ⟨hnab, ?_⟩
              intro ev hev
              rcases List.mem_append.mp hev with hm | hm
              · exact h1 ev hm
              · exact hfree2 ev hm
            · refine Or.inr ⟨hfab, evs1 ++ l, e, u, f, ?_, ?_⟩
              · rw [hdec, List.append_assoc]
              · intro ev hev
                rcases List.mem_append.mp hev with hm | hm
                · exact h1 ev hm
                · exact hfree2 ev hm
        · rw [hf] at hab
          cases hab rfl

/-- Invariants of the launch loop, by induction on the record list: on
entry to each iteration at most 20 futures are in flight, so no instant
ever exceeds 21; progress plus in-flight count accounts for every record
launched so far (falling strictly short of the total exactly on abort);
one launch event is emitted per record; progress advances once per inc
event; errors ignored means no abort; every drained error is reported;
and without `ignore` the trace is report-free unless it ends in the
single fatal report. -/
theorem launchPhase_spec (ignore verbose : Bool) (pickF : Nat → Nat) :
    ∀ (items : List Item) (d : Nat) (s sf : St) (sts : List St)
    (evs : List SchedEv) (df : Nat), s.aborted = false →
    s.inflight.length ≤ 20 →
    launchPhase ignore verbose pickF items d s = (sf, sts, evs, df) →
    sf.inflight.length ≤ 20 ∧
    (∀ t ∈ sts, t.inflight.length ≤ 21) ∧
    (sf.aborted = false →
      sf.progress + sf.inflight.length =
        s.progress + s.inflight.length + items.length ∧
      evs.countP SchedEv.isLaunch = items.length) ∧
    (sf.aborted = true →
      sf.progress + sf.inflight.length <
        s.progress + s.inflight.length + items.length) ∧
    sf.progress = s.progress + evs.countP SchedEv.isInc ∧
    (ignore = true → sf.aborted = false) ∧
    (∀ img e, SchedEv.drained img (.error e) ∈ evs →
      SchedEv.reportErr e img.url img.file_name ∈ evs) ∧
    (ignore = false →
      (sf.aborted = false ∧ ∀ ev ∈ evs, ev.isReportErr = false) ∨
      (sf.aborted = true ∧ ∃ l e u f, evs = l ++ [SchedEv.reportErr e u f] ∧
        ∀ ev ∈ l, ev.isReportErr = false)) := by
  intro items
  induction items with
  | nil =>
    intro d s sf sts evs df ha hcap hrun
    simp only [launchPhase] at hrun
    injection hrun with hA hrest
    injection hrest with hB hrest2
    injection hrest2 with hC hD
    subst hA
    subst hB
    subst hC
    refine ⟨hcap, by simp, fun _ => by simp, fun hab => ?_, by simp,
      fun _ => ha, by simp, fun _ => Or.inl ⟨ha, by simp⟩⟩
    rw [hab] at ha
    cases ha
  | cons it rest ih =>
    intro d s sf sts evs df ha hcap hrun
    simp only [launchPhase] at hrun
    have hlen1 : ({ s with inflight := s.inflight ++ [it] } : St).inflight.length =
        s.inflight.length + 1 := by simp
    have hp1 : ({ s with inflight := s.inflight ++ [it] } : St).progress =
        s.progress := rfl
    split at hrun
    · rename_i hgt
      rw [hlen1] at hgt
      have hne : ({ s with inflight := s.inflight ++ [it] } : St).inflight ≠ [] := by
        simp
      rcases hd : drainStep ignore verbose (pickF d)
          { s with inflight := s.inflight ++ [it] } with ⟨s2, evs1⟩
      rw [hd] at hrun
      dsimp only at hrun
      obtain ⟨hL, hPA, hLa, hRep, hPl⟩ :=
        drainStep_spec ignore verbose (pickF d)
          { s with inflight := s.inflight ++ [it] } s2 evs1 hne ha hd
      rw [hlen1] at hL
      split at hrun
      · rename_i hab2
        injection hrun with hA hrest
        injection hrest with hB hrest2
        injection hrest2 with hC hD
        subst hA
        subst hB
        subst hC
        rcases hPA with ⟨hf, _⟩ | ⟨_, hig, hprog, hinc⟩
        · rw [hab2] at hf
          cases hf
        · refine ⟨by omega, ?_, fun hnab => ?_, fun _ => by
            simp [List.length_cons]
            omega, ?_, fun hi => ?_, ?_, fun _ => ?_⟩
          · intro t ht
            rcases List.mem_cons.mp ht with rfl | ht'
            · simp
              omega
            · rcases List.mem_singleton.mp ht' with rfl
              omega
          · rw [hnab] at hab2
            cases hab2
          · simp [SchedEv.isInc, List.countP_cons]
            omega
          · rw [hi] at hig
            cases hig
          · intro img e hmem
            rcases List.mem_cons.mp hmem with hm | hm
            · cases hm
            · exact List.mem_cons_of_mem _ (hRep img e hm)
          · rcases hPl hig with ⟨hf, _⟩ | ⟨_, l, e, u, f, hdec, hfree⟩
            · rw [hab2] at hf
              cases hf
            · refine Or.inr ⟨hab2, SchedEv.launch it.1 :: l, e, u, f, ?_, ?_⟩
              · rw [hdec]
                rfl
              · intro ev hev
                rcases List.mem_cons.mp hev with rfl | hm
                · rfl
                · exact hfree ev hm
      · rename_i hab2
        have hab2' : s2.aborted = false := by
          cases hv : s2.aborted
          · rfl
          · rw [hv] at hab2; cases hab2 rfl
        rcases hPA with ⟨_, hprog, hinc⟩ | ⟨hf, _⟩
        · rcases hrec : launchPhase ignore verbose pickF rest (d + 1) s2
            with ⟨sf1, sts1, evs2, df1⟩
          rw [hrec] at hrun
          dsimp only at hrun
          obtain ⟨ihCap, ihSts, ihDone, ihAb, ihInc, ihIg, ihRep, ihPl⟩ :=
            ih (d + 1) s2 sf1 sts1 evs2 df1 hab2' (by omega) hrec
          injection hrun with hA hrest'
          injection hrest' with hB hrest2
          injection hrest2 with hC hD
          subst hA
          subst hB
          subst hC
          refine ⟨ihCap, ?_, fun hnab => ?_, fun hfab => ?_, ?_, ihIg, ?_,
            fun hig => ?_⟩
          · intro t ht
            rcases List.mem_cons.mp ht with rfl | ht'
            · simp
              omega
            · rcases List.mem_cons.mp ht' with rfl | ht''
              · omega
              · exact ihSts t ht''
          · obtain ⟨hE1, hE2⟩ := ihDone hnab
            constructor
            · simp only [List.length_cons]
              omega
            · have hl1 : SchedEv.isLaunch (SchedEv.launch it.1) = true := rfl
              simp only [List.countP_cons, List.countP_append, hLa, hE2, hl1,
                List.length_cons]
              simp
          · have := ihAb hfab
            simp only [List.length_cons]
            omega
          · rw [List.countP_cons_of_neg SchedEv.isInc _ (by simp [SchedEv.isInc]),
              List.countP_append, hinc]
            omega
          · intro img e hmem
            rcases List.mem_cons.mp hmem with hm | hm
            · cases hm
            · rcases List.mem_append.mp hm with hm' | hm'
              · exact List.mem_cons_of_mem _
                  (List.mem_append.mpr (Or.inl (hRep img e hm')))
              · exact List.mem_cons_of_mem _
                  (List.mem_append.mpr (Or.inr (ihRep img e hm')))
          · have h1 : ∀ ev ∈ evs1, ev.isReportErr = false := by
              rcases hPl hig with ⟨_, hfree⟩ | ⟨hf, _⟩
              · exact hfree
              · rw [hf] at hab2
                cases hab2 rfl
            rcases ihPl hig with ⟨hnab, hfree2⟩ | ⟨hfab, l, e, u, f, hdec, hfree2⟩
            · refine Or.inl ⟨hnab, ?_⟩
              intro ev hev
              rcases List.mem_cons.mp hev with rfl | hm
              · rfl
              · rcases List.mem_append.mp hm with hm' | hm'
                · exact h1 ev hm'
                · exact hfree2 ev hm'
            · refine Or.inr ⟨hfab, SchedEv.launch it.1 :: (evs1 ++ l), e, u, f,
                ?_, ?_⟩
              · rw [hdec]
                simp
              · intro ev hev
                rcases List.mem_cons.mp hev with rfl | hm
                · rfl
                · rcases List.mem_append.mp hm with hm' | hm'
                  · exact h1 ev hm'
                  · exact hfree2 ev hm'
        · rw [hf] at hab2
          cases hab2 rfl
    · rename_i hgt
      rw [hlen1] at hgt
      rcases hrec : launchPhase ignore verbose pickF rest d
          { s with inflight := s.inflight ++ [it] } with ⟨sf1, sts1, evs2, df1⟩
      rw [hrec] at hrun
      dsimp only at hrun
      obtain ⟨ihCap, ihSts, ihDone, ihAb, ihInc, ihIg, ihRep, ihPl⟩ :=
        ih d { s with inflight := s.inflight ++ [it] } sf1 sts1 evs2 df1 ha
          (by omega) hrec
      injection hrun with hA hrest'
      injection hrest' with hB hrest2
      injection hrest2 with hC hD
      subst hA
      subst hB
      subst hC
      refine ⟨ihCap, ?_, fun hnab => ?_, fun hfab => ?_, ?_, ihIg, ?_,
        fun hig => ?_⟩
      · intro t ht
        rcases List.mem_cons.mp ht with rfl | ht'
        · simp
          omega
        · exact ihSts t ht'
      · obtain ⟨hE1, hE2⟩ := ihDone hnab
        rw [hlen1] at hE1
        constructor
        · simp only [List.length_cons]
          omega
        · have hl1 : SchedEv.isLaunch (SchedEv.launch it.1) = true := rfl
          simp only [List.countP_cons, hE2, hl1, List.length_cons]
          simp
      · have := ihAb hfab
        rw [hlen1] at this
        simp only [List.length_cons]
        omega
      · have hi0 : SchedEv.isInc (SchedEv.launch it.1) = false := rfl
        simp only [List.countP_cons, hi0, if_neg, List.length_cons]
        simp only [Bool.false_eq_true, if_false]
        omega
      · intro img e hmem
        rcases List.mem_cons.mp hmem with hm | hm
        · cases hm
        · exact List.mem_cons_of_mem _ (ihRep img e hm)
      · rcases ihPl hig with ⟨hnab, hfree2⟩ | ⟨hfab, l, e, u, f, hdec, hfree2⟩
        · refine Or.inl ⟨hnab, ?_⟩
          intro ev hev
          rcases List.mem_cons.mp hev with rfl | hm
          · rfl
          · exact hfree2 ev hm
        · refine Or.inr ⟨hfab, SchedEv.launch it.1 :: l, e, u, f, ?_, ?_⟩
          · rw [hdec]
            rfl
          · intro ev hev
            rcases List.mem_cons.mp hev with rfl | hm
            · rfl
            · exact hfree2 ev hm

/-- All run-level guarantees of the scheduler, obtained by gluing the
launch-phase and drain-loop invariants: every instant has at most 21
futures in flight; progress equals the number of progress-bar increments;
a run that does not abort has drained everything, launched every record
and counted every record; an aborted run counts strictly fewer; ignoring
errors rules out aborting; every drained error is reported; and without
`ignore` the event trace is report-free unless it ends at the single
fatal report. -/
theorem schedule_spec (ignore verbose : Bool) (pickF : Nat → Nat)
    (items : List Item) :
    (∀ t ∈ (schedule ignore verbose pickF items).states,
      t.inflight.length ≤ 21) ∧
    (schedule ignore verbose pickF items).final.progress =
      ((schedule ignore verbose pickF items).events.countP SchedEv.isInc) ∧
    ((schedule ignore verbose pickF items).final.aborted = false →
      (schedule ignore verbose pickF items).final.progress = items.length ∧
      (schedule ignore verbose pickF items).final.inflight = [] ∧
      ((schedule ignore verbose pickF items).events.countP SchedEv.isLaunch) =
        items.length) ∧
    ((schedule ignore verbose pickF items).final.aborted = true →
      (schedule ignore verbose pickF items).final.progress < items.length) ∧
    (ignore = true → (schedule ignore verbose pickF items).final.aborted = false) ∧
    (∀ img e,
      SchedEv.drained img (.error e) ∈ (schedule ignore verbose pickF items).events →
      SchedEv.reportErr e img.url img.file_name ∈
        (schedule ignore verbose pickF items).events) ∧
    (ignore = false →
      ((schedule ignore verbose pickF items).final.aborted = false ∧
        ∀ ev ∈ (schedule ignore verbose pickF items).events,
          ev.isReportErr = false) ∨
      ((schedule ignore verbose pickF items).final.aborted = true ∧
        ∃ l e u f, (schedule ignore verbose pickF items).events =
          l ++ [SchedEv.reportErr e u f] ∧ ∀ ev ∈ l, ev.isReportErr = false)) := by
  rcases hlp : launchPhase ignore verbose pickF items 0
      { inflight := [], progress := 0, aborted := false }
    with ⟨s1, sts1, evs1, d⟩
  obtain ⟨lpCap, lpSts, lpDone, lpAb, lpInc, lpIg, lpRep, lpPl⟩ :=
    launchPhase_spec ignore verbose pickF items 0
      { inflight := [], progress := 0, aborted := false } s1 sts1 evs1 d rfl
      (by simp) hlp
  by_cases hab : s1.aborted
  · have hsch : schedule ignore verbose pickF items =
        ⟨s1, { inflight := [], progress := 0, aborted := false } :: sts1, evs1⟩ := by
      unfold schedule
      dsimp only
      rw [hlp]
      dsimp only
      rw [if_pos hab]
    rw [hsch]
    dsimp only
    simp only [List.length_nil, Nat.zero_add] at lpAb lpInc
    refine ⟨?_, by simpa using lpInc, fun hnab => ?_, fun _ => ?_,
      fun hi => ?_, lpRep, fun hig => ?_⟩
    · intro t ht
      rcases List.mem_cons.mp ht with rfl | ht'
      · simp
      · exact lpSts t ht'
    · rw [hnab] at hab
      cases hab
    · have := lpAb hab
      omega
    · have := lpIg hi
      rw [this] at hab
      cases hab
    · rcases lpPl hig with ⟨hf, _⟩ | ⟨_, l, e, u, f, hdec, hfree⟩
      · rw [hab] at hf
        cases hf
      · exact Or.inr ⟨hab, l, e, u, f, hdec, hfree⟩
  · have hab' : s1.aborted = false := by
      cases hv : s1.aborted
      · rfl
      · rw [hv] at hab; cases hab rfl
    rcases hdl : drainLoop ignore verbose pickF s1.inflight.length d s1
      with ⟨sf, sts2, evs2⟩
    obtain ⟨dlSts, dlDone, dlAb, dlInc, dlLa, dlIg, dlRep, dlPl⟩ :=
      drainLoop_spec ignore verbose pickF s1.inflight.length d s1 sf sts2 evs2
        hab' (Nat.le_refl _) hdl
    have hsch : schedule ignore verbose pickF items =
        ⟨sf, { inflight := [], progress := 0, aborted := false } ::
          (sts1 ++ sts2), evs1 ++ evs2⟩ := by
      unfold schedule
      dsimp only
      rw [hlp]
      dsimp only
      rw [if_neg hab, hdl]
    rw [hsch]
    dsimp only
    simp only [List.length_nil, Nat.zero_add] at lpAb lpInc lpDone
    refine ⟨?_, ?_, fun hnab => ?_, fun hfab => ?_, dlIg, ?_, fun hig => ?_⟩
    · intro t ht
      rcases List.mem_cons.mp ht with rfl | ht'
      · simp
      · rcases List.mem_append.mp ht' with hm | hm
        · exact lpSts t hm
        · have := dlSts t hm
          omega
    · rw [List.countP_append]
      omega
    · obtain ⟨hD1, hD2⟩ := dlDone hnab
      obtain ⟨hE1, hE2⟩ := lpDone hab'
      refine ⟨by omega, hD1, ?_⟩
      rw [List.countP_append, hE2, dlLa]
      omega
    · have h1 := dlAb hfab
      obtain ⟨hE1, hE2⟩ := lpDone hab'
      omega
    · intro img e hmem
      rcases List.mem_append.mp hmem with hm | hm
      · exact List.mem_append.mpr (Or.inl (lpRep img e hm))
      · exact List.mem_append.mpr (Or.inr (dlRep img e hm))
    · have h1 : ∀ ev ∈ evs1, ev.isReportErr = false := by
        rcases lpPl hig with ⟨_, hfree⟩ | ⟨hf, _⟩
        · exact hfree
        · rw [hf] at hab
          cases hab rfl
      rcases dlPl hig with ⟨hnab, hfree2⟩ | ⟨hfab, l, e, u, f, hdec, hfree2⟩
      · refine Or.inl ⟨hnab, ?_⟩
        intro ev hev
        rcases List.mem_append.mp hev with hm | hm
        · exact h1 ev hm
        · exact hfree2 ev hm
      · refine Or.inr ⟨hfab, evs1 ++ l, e, u, f, ?_, ?_⟩
        · rw [hdec, List.append_assoc]
        · intro ev hev
          rcases List.mem_append.mp hev with hm | hm
          · exact h1 ev hm
          · exact hfree2 ev hm

/-! ## Scheduler claims -/

/-- C1 counterexample: with the only candidate value of the spec's
`concurrencyLimit` present in the program — the hardcoded drain threshold
20 of main.rs 75 — the invariant fails: in a 21-record run an instant
exists (immediately after the 21st push, before the drain) with 21
launched-but-not-completed futures. -/
theorem inflight_can_exceed_20 :
    ∃ t ∈ (schedule false false (fun _ => 0) items21).states,
      20 < t.inflight.length := by
  decide

/-- C1 (amended): the number of launched-but-not-completed Fetch Unit
invocations is bounded at every instant — but the bound is 21, one more
than the hardcoded drain threshold 20 (the configuration `Args` carries no
concurrency limit at all), because `main` pushes first and only then
drains when the in-flight count exceeds 20. -/
theorem inflight_bounded_by_21 (ignore verbose : Bool) (pickF : Nat → Nat)
    (items : List Item) (t : St)
    (ht : t ∈ (schedule ignore verbose pickF items).states) :
    t.inflight.length ≤ 21 :=
  (schedule_spec ignore verbose pickF items).1 t ht

/-- Witness for the amended C1: the initial state of the empty run. -/
theorem inflight_bounded_by_21_witness :
    ({ inflight := [], progress := 0, aborted := false } : St) ∈
      (schedule false false (fun _ => 0) []).states ∧
    ({ inflight := [], progress := 0, aborted := false } : St).inflight.length ≤ 21 :=
  ⟨by decide, inflight_bounded_by_21 false false (fun _ => 0) [] _ (by decide)⟩

/-- C10: the concurrency bound is the hardcoded drain threshold of
main.rs 75, not a configuration value: every instant of every run has at
most 21 futures in flight, and in a concrete 21-record run the instant
right after the 21st launch (state index 21) holds exactly 21, dropping
back to 20 once one completion is drained (state index 22). -/
theorem concurrency_bound_hardcoded_21 :
    (∀ (ignore verbose : Bool) (pickF : Nat → Nat) (items : List Item),
      ∀ t ∈ (schedule ignore verbose pickF items).states,
        t.inflight.length ≤ 21) ∧
    ((schedule false false (fun _ => 0) items21).states.getD 21
      { inflight := [], progress := 0, aborted := false }).inflight.length = 21 ∧
    ((schedule false false (fun _ => 0) items21).states.getD 22
      { inflight := [], progress := 0, aborted := false }).inflight.length = 20 :=
  ⟨fun ignore verbose pickF items => (schedule_spec ignore verbose pickF items).1,
    by decide, by decide⟩

/-- C6: over a whole run of `main` (parse, then schedule), the progress
bar advances exactly once per `inc` event — emitted only when a drained
completion is processed, never at a launch — and its final count equals
the number of successfully parsed records iff the run does not abort
fatally; on a fatal abort it stays strictly below that number. -/
theorem progress_counts_drained_completions (ignore verbose : Bool)
    (pickF : Nat → Nat) (lines : List String)
    (outcome : Image → DownloadResult) :
    (mainRun ignore verbose pickF lines outcome).final.progress =
      ((mainRun ignore verbose pickF lines outcome).events.countP
        SchedEv.isInc) ∧
    ((mainRun ignore verbose pickF lines outcome).final.aborted = false ↔
      (mainRun ignore verbose pickF lines outcome).final.progress =
        (parse_url_file lines).1.length) ∧
    ((mainRun ignore verbose pickF lines outcome).final.aborted = true →
      (mainRun ignore verbose pickF lines outcome).final.progress <
        (parse_url_file lines).1.length) := by
  obtain ⟨_, hInc, hDone, hAb, _, _, _⟩ := schedule_spec ignore verbose pickF
    (((parse_url_file lines).1).map (fun img => (img, outcome img)))
  have hlen : (((parse_url_file lines).1).map
      (fun img => (img, outcome img))).length =
      (parse_url_file lines).1.length := by simp
  rw [hlen] at hDone hAb
  exact ⟨hInc, ⟨fun h => (hDone h).1, fun h => by
    cases hv : (mainRun ignore verbose pickF lines outcome).final.aborted
    · rfl
    · have := hAb hv
      unfold mainRun at h
      omega⟩, fun h => hAb h⟩

/-- C7: whenever a `Failed` outcome is drained, its source url,
destination file name and failure reason are reported; with
`ignoreErrors` false the run's trace is either entirely failure-free or
ends at the single fatal report — nothing is launched or drained after
it — and the run ends aborted; with `ignoreErrors` true the run never
aborts and continues to the next completion. -/
theorem failed_outcome_policy (ignore verbose : Bool) (pickF : Nat → Nat)
    (items : List Item) :
    (∀ img e, SchedEv.drained img (.error e) ∈
        (schedule ignore verbose pickF items).events →
      SchedEv.reportErr e img.url img.file_name ∈
        (schedule ignore verbose pickF items).events) ∧
    (ignore = false →
      ((schedule ignore verbose pickF items).final.aborted = false ∧
        ∀ ev ∈ (schedule ignore verbose pickF items).events,
          ev.isReportErr = false) ∨
      ((schedule ignore verbose pickF items).final.aborted = true ∧
        ∃ l e u f, (schedule ignore verbose pickF items).events =
          l ++ [SchedEv.reportErr e u f] ∧
          ∀ ev ∈ l, ev.isReportErr = false)) ∧
    (ignore = true →
      (schedule ignore verbose pickF items).final.aborted = false) := by
  obtain ⟨_, _, _, _, hIg, hRep, hPl⟩ :=
    schedule_spec ignore verbose pickF items
  exact ⟨hRep, hPl, hIg⟩

/-- C8: the scheduler's run returns only after either a fatal abort, or
every record has been launched (one launch event per record) and every
in-flight invocation drained (the in-flight set sits empty); the model's
drain loop is total, so `schedule` always returns one of the two. -/
theorem run_terminates_drained (ignore verbose : Bool) (pickF : Nat → Nat)
    (items : List Item) :
    (schedule ignore verbose pickF items).final.aborted = true ∨
    ((schedule ignore verbose pickF items).final.inflight = [] ∧
      ((schedule ignore verbose pickF items).events.countP
        SchedEv.isLaunch) = items.length) := by
  obtain ⟨_, _, hDone, _, _, _, _⟩ := schedule_spec ignore verbose pickF items
  cases hv : (schedule ignore verbose pickF items).final.aborted
  · obtain ⟨_, h2, h3⟩ := hDone hv
    exact Or.inr ⟨h2, h3⟩
  · exact Or.inl rfl

end FastDownload
